import Mathlib

/-!
The ASCII-art selector and the session model of `cmd/fissh/main.go`.

A shallow embedding of `get_fish`, `lookup_timezone`, `teaHandler`,
`model.Update` and `model.View`, followed by the properties proved about them.
-/

namespace Fissh

/-! ## Go values -/

/-- A Go `string`: an immutable sequence of bytes, each a natural below 256. -/
abbrev GoString := List Nat

/-- The bytes of an ASCII literal. -/
def ascii (s : String) : GoString := s.toList.map Char.toNat

/-- Why a Go computation stopped abnormally with a run-time panic. -/
inductive GoPanic where
  | sliceBoundsOutOfRange
  deriving DecidableEq, Repr

/-- How a Go call ends: it returns a value, it panics, or the process is
ended by `os.Exit` (which is what `log.Fatal` does after logging). -/
inductive Outcome (α : Type) where
  | returned (a : α)
  | panicked (p : GoPanic)
  | exited (code : Nat)
  deriving DecidableEq, Repr

/-! ## `strings.Split(s, "\n")` -/

/-- `strings.Split(s, "\n")`: the pieces between newline bytes; always at
least one piece. -/
def split_newline : GoString → List GoString
  | [] => [[]]
  | b :: rest =>
    if b = 10 then [] :: split_newline rest
    else
      match split_newline rest with
      | [] => [[b]]
      | l :: ls => (b :: l) :: ls

/-! ## UTF-8 decoding, as done by `for _, char := range line` -/

/-- Whether `b` lies in the byte range `lo..hi`. -/
def inRange (lo hi b : Nat) : Bool := decide (lo ≤ b) && decide (b ≤ hi)

/-- The rune that starts a non-empty string, and the number of bytes it takes:
Go's UTF-8 decoder. An invalid or truncated encoding is the rune `0xFFFD` of
width 1. -/
def decodeRune : GoString → Nat × Nat
  | [] => (0xFFFD, 0)
  | s0 :: rest =>
    if s0 < 0x80 then (s0, 1)
    else if inRange 0xC2 0xDF s0 then
      match rest with
      | s1 :: _ =>
        if inRange 0x80 0xBF s1 then (s0 % 32 * 64 + s1 % 64, 2) else (0xFFFD, 1)
      | _ => (0xFFFD, 1)
    else if inRange 0xE0 0xEF s0 then
      match rest with
      | s1 :: s2 :: _ =>
        let lo := if s0 = 0xE0 then 0xA0 else 0x80
        let hi := if s0 = 0xED then 0x9F else 0xBF
        if inRange lo hi s1 && inRange 0x80 0xBF s2 then
          (s0 % 16 * 4096 + s1 % 64 * 64 + s2 % 64, 3)
        else (0xFFFD, 1)
      | _ => (0xFFFD, 1)
    else if inRange 0xF0 0xF4 s0 then
      match rest with
      | s1 :: s2 :: s3 :: _ =>
        let lo := if s0 = 0xF0 then 0x90 else 0x80
        let hi := if s0 = 0xF4 then 0x8F else 0xBF
        if inRange lo hi s1 && inRange 0x80 0xBF s2 && inRange 0x80 0xBF s3 then
          (s0 % 8 * 262144 + s1 % 64 * 4096 + s2 % 64 * 64 + s3 % 64, 4)
        else (0xFFFD, 1)
      | _ => (0xFFFD, 1)
    else (0xFFFD, 1)

/-- The inner loop of `get_fish` (lines 65-72): range over the runes of
`line`, adding one for each `' '` and breaking at the first other rune. The
fuel bounds the number of runes visited by the number of bytes. -/
def count_leading_spaces : Nat → GoString → Nat → Nat
  | 0, _, acc => acc
  | fuel + 1, line, acc =>
    match line with
    | [] => acc
    | _ :: _ =>
      if (decodeRune line).1 = 32 then
        count_leading_spaces fuel (line.drop (decodeRune line).2) (acc + 1)
      else acc

/-- The value of `line_leading_spaces` after the inner loop. -/
def line_leading_spaces (line : GoString) : Nat :=
  count_leading_spaces line.length line 0

/-! ## `get_fish` -/

/-- The three locals of the measuring loop of `get_fish` (lines 54-56). -/
structure Scan where
  num_lines : Nat
  max_length : Nat
  leading_spaces : Int
  deriving DecidableEq, Repr

/-- The initial values: `0`, `0` and the sentinel `-1`. -/
def Scan.init : Scan := ⟨0, 0, -1⟩

/-- One iteration of the measuring loop (lines 58-83). -/
def scan_line (st : Scan) (line : GoString) : Scan :=
  let lls := line_leading_spaces line
  { num_lines := st.num_lines + 1
    max_length := if line.length > st.max_length then line.length else st.max_length
    leading_spaces :=
      if line.length > lls then
        if st.leading_spaces = -1 then (lls : Int)
        else if (lls : Int) < st.leading_spaces then (lls : Int)
        else st.leading_spaces
      else st.leading_spaces }

/-- The measuring loop over all lines of one fish. -/
def scan (lines : List GoString) : Scan := lines.foldl scan_line Scan.init

/-- The slice expression `line[i:]`: panics unless `0 ≤ i ≤ len(line)`. -/
def slice_from (line : GoString) (i : Int) : Outcome GoString :=
  if i < 0 ∨ (line.length : Int) < i then .panicked .sliceBoundsOutOfRange
  else .returned (line.drop i.toNat)

/-- The stripping loop (lines 86-94), with `new_fish` as accumulator. -/
def strip_loop (leading_spaces : Int) : List GoString → GoString → Outcome GoString
  | [], new_fish => .returned new_fish
  | line :: rest, new_fish =>
    if (line.length : Int) > leading_spaces then
      match slice_from line leading_spaces with
      | .returned s => strip_loop leading_spaces rest (new_fish ++ s ++ [10])
      | .panicked p => .panicked p
      | .exited c => .exited c
    else strip_loop leading_spaces rest (new_fish ++ [10])

/-- The test of line 85 on the measurements of one fish. -/
def fits (fish : GoString) (max_width max_height : Int) : Prop :=
  ((scan (split_newline fish)).num_lines : Int) < max_height ∧
    ((scan (split_newline fish)).max_length : Int) < max_width

instance (fish : GoString) (w h : Int) : Decidable (fits fish w h) := by
  unfold fits; infer_instance

/-- The function `get_fish` (lines 32-100). `files` is the content of the
fish files in the order left by `rand.Shuffle`; a file that cannot be read
contributes the empty string. The result for no fitting fish is `""`. -/
def get_fish : List GoString → Int → Int → Outcome GoString
  | [], _, _ => .returned []
  | fish :: files, max_width, max_height =>
    if fits fish max_width max_height then
      strip_loop (scan (split_newline fish)).leading_spaces (split_newline fish) []
    else get_fish files max_width max_height


/-! ## Measures used to state the properties of `get_fish` -/

/-- Number of leading space bytes of a line. -/
def leading (line : GoString) : Nat := (line.takeWhile (fun b => decide (b = 32))).length

/-- A line is non-blank when some byte of it is not a space. -/
def nonBlank (line : GoString) : Prop := ∃ b ∈ line, b ≠ 32

instance (line : GoString) : Decidable (nonBlank line) := by
  unfold nonBlank; infer_instance

/-- The number `m` is the minimum of the leading-space counts of the non-blank
lines of `lines`. -/
def IsMinLeading (m : Nat) (lines : List GoString) : Prop :=
  (∃ l ∈ lines, nonBlank l ∧ leading l = m) ∧ ∀ l ∈ lines, nonBlank l → m ≤ leading l

instance (m : Nat) (lines : List GoString) : Decidable (IsMinLeading m lines) := by
  unfold IsMinLeading; infer_instance

/-- Number of lines of an asset: the pieces of `strings.Split(fish, "\n")`. -/
def lineCount (fish : GoString) : Nat := (split_newline fish).length

/-- Length in bytes of the longest line of an asset. -/
def maxLineWidth (fish : GoString) : Nat :=
  ((split_newline fish).map List.length).foldr max 0

/-- A line with its first `m` bytes removed; empty when it has at most `m`. -/
def strip_line (m : Nat) (line : GoString) : GoString :=
  if line.length > m then line.drop m else []

/-- Every line followed by a newline byte, concatenated. -/
def unlines : List GoString → GoString
  | [] => []
  | l :: ls => l ++ 10 :: unlines ls

/-- All runes of a line, in order, as `for range` yields them. -/
def runes : Nat → GoString → List Nat
  | 0, _ => []
  | fuel + 1, line =>
    match line with
    | [] => []
    | _ :: _ => (decodeRune line).1 :: runes fuel (line.drop (decodeRune line).2)

/-- Following the words of the specification ("measured in display columns,
not bytes: multi-byte/wide characters must count per their rendered width"):
the number of terminal columns one rune occupies. Control and combining
characters take none, East Asian wide characters and emoji take two, every
other rune takes one. -/
def runeColumns (r : Nat) : Nat :=
  if r < 32 ∨ (0x7F ≤ r ∧ r < 0xA0) then 0
  else if 0x300 ≤ r ∧ r ≤ 0x36F then 0
  else if (0x1100 ≤ r ∧ r ≤ 0x115F) ∨ (0x2E80 ≤ r ∧ r ≤ 0xA4CF) ∨ (0xAC00 ≤ r ∧ r ≤ 0xD7A3)
      ∨ (0xF900 ≤ r ∧ r ≤ 0xFAFF) ∨ (0xFE30 ≤ r ∧ r ≤ 0xFE6F) ∨ (0xFF00 ≤ r ∧ r ≤ 0xFF60)
      ∨ (0xFFE0 ≤ r ∧ r ≤ 0xFFE6) ∨ (0x1F300 ≤ r ∧ r ≤ 0x1FAFF) ∨ (0x20000 ≤ r ∧ r ≤ 0x3FFFD) then 2
  else 1

/-- Following the words of the specification: the width of a line in display
columns. -/
def displayColumns (line : GoString) : Nat :=
  ((runes line.length line).map runeColumns).sum

/-- Following the words of the specification: `maxLineWidth` measured in
display columns. -/
def maxDisplayWidth (fish : GoString) : Nat :=
  ((split_newline fish).map displayColumns).foldr max 0

/-! ## Time of day -/

/-- A `time.Time`, as whole seconds since the Unix epoch; the layouts used
by `View` show nothing finer. -/
abbrev Time := Int

/-- A `*time.Location`: the offset from UTC, in seconds, in force at each
instant. -/
structure Location where
  offset : Int → Int

/-- Seconds elapsed since midnight on the wall clock of `loc` at instant `t`. -/
def secondOfDay (t : Time) (loc : Location) : Nat := ((t + loc.offset t) % 86400).toNat

/-- Hour of the day, `0..23`, of `t.In(loc)`. -/
def hour (t : Time) (loc : Location) : Nat := secondOfDay t loc / 3600

/-- Minute of the hour of `t.In(loc)`. -/
def minute (t : Time) (loc : Location) : Nat := secondOfDay t loc % 3600 / 60

/-- Second of the minute of `t.In(loc)`. -/
def second (t : Time) (loc : Location) : Nat := secondOfDay t loc % 60

/-- A number below 100 in two decimal digits, zero padded, as the layout
elements `15`, `03`, `04` and `05` print it. -/
def two_digits (x : Nat) : GoString := [48 + x / 10, 48 + x % 10]

/-- The hour on the 12-hour dial, `1..12`: what the layout element `03` prints. -/
def hour12 (t : Time) (loc : Location) : Nat :=
  if hour t loc % 12 = 0 then 12 else hour t loc % 12

/-- The call `t.In(loc).Format("15:04:05")`. -/
def format_15_04_05 (t : Time) (loc : Location) : GoString :=
  two_digits (hour t loc) ++ [58] ++ two_digits (minute t loc) ++ [58] ++ two_digits (second t loc)

/-- The call `t.In(loc).Format("03:04")`. -/
def format_03_04 (t : Time) (loc : Location) : GoString :=
  two_digits (hour12 t loc) ++ [58] ++ two_digits (minute t loc)

/-! ## The session model -/

/-- The library types and functions the program is linked against
(`bubbles/timer` and `lipgloss`), left uninterpreted. -/
structure Ext where
  Timer : Type
  TickMsg : Type
  TimerCmd : Type
  Style : Type
  timerUpdate : Timer → TickMsg → Timer × Option TimerCmd
  render : Style → GoString → GoString
  setWidth : Style → Int → Style
  setHeight : Style → Int → Style
  place : Int → Int → GoString → GoString

/-- A `tea.Cmd` as returned by `Update`: `nil`, `tea.Quit`, or a command of
the timer. -/
inductive Cmd (E : Ext) where
  | nil
  | quit
  | timer (c : E.TimerCmd)

/-- A `tea.Msg`, by the cases `Update` switches on. A key message is given
by its `String()`. -/
inductive Msg (E : Ext) where
  | key (name : GoString)
  | windowSize (width height : Int)
  | tick (t : E.TickMsg)
  | other

/-- The struct `model` (lines 193-204). -/
structure Model (E : Ext) where
  timer : E.Timer
  time : Time
  timezone : Location
  fish : GoString
  width : Int
  height : Int
  appStyle : E.Style
  txtStyle : E.Style
  fishStyle : E.Style
  quitStyle : E.Style

/-- The method `model.Update` (lines 210-228); `now` is the value of
`time.Now()`. -/
def Update (E : Ext) (now : Time) (m : Model E) (msg : Msg E) : Model E × Cmd E :=
  match msg with
  | .key name =>
    if name = ascii "q" ∨ name = ascii "ctrl+c" then (m, .quit)
    else (m, .nil)
  | .windowSize width height => ({ m with width := width, height := height }, .nil)
  | .tick t =>
    let r := E.timerUpdate m.timer t
    ({ m with timer := r.1, time := now },
      match r.2 with
      | some c => .timer c
      | none => .nil)
  | .other => (m, .nil)

/-- The text shown in place of the fish. -/
def placeholder : GoString := ascii "Come back at 11:11"

/-- The quit hint `Press 'q' to quit`. -/
def quit_hint : GoString := ascii "Press " ++ [39, 113, 39] ++ ascii " to quit"

/-- The method `model.View` (lines 230-243); `alwaysfish` is the value of
`os.Getenv("ALWAYSFISH")`. -/
def View (E : Ext) (alwaysfish : GoString) (m : Model E) : GoString :=
  let s := ascii "The time is " ++ format_15_04_05 m.time m.timezone
  let s :=
    if format_03_04 m.time m.timezone = ascii "11:11" ∨ alwaysfish = ascii "1" then
      E.render m.txtStyle s ++ ascii "\n\n" ++ E.render m.fishStyle m.fish
    else
      E.render m.txtStyle s ++ ascii "\n\n" ++ E.render m.fishStyle placeholder
  let s := s ++ ascii "\n\n" ++ E.render m.quitStyle quit_hint
  let s := E.place m.width m.height s
  E.render (E.setHeight (E.setWidth m.appStyle m.width) m.height) s

/-- The frame `View` builds around the text `region` put beneath the clock:
clock line, region, quit hint, centred in the viewport. -/
def frame (E : Ext) (m : Model E) (region : GoString) : GoString :=
  E.render (E.setHeight (E.setWidth m.appStyle m.width) m.height)
    (E.place m.width m.height
      (E.render m.txtStyle (ascii "The time is " ++ format_15_04_05 m.time m.timezone)
        ++ ascii "\n\n" ++ E.render m.fishStyle region
        ++ ascii "\n\n" ++ E.render m.quitStyle quit_hint))

/-! ## Session setup -/

/-- What `teaHandler` reads from the `ssh.Session`. -/
structure Session where
  remoteAddr : GoString
  ptyWidth : Int
  ptyHeight : Int

/-- The surroundings of one call of `teaHandler`: the IP lookup service, the
timezone database, the clock, the fish directory in shuffled order, and the
values built by the renderer and the timer library. -/
structure World (E : Ext) where
  getIPInfo : GoString → Except GoString GoString
  loadLocation : GoString → Except GoString Location
  now : Time
  files : List GoString
  newTimer : E.Timer
  appStyle : E.Style
  txtStyle : E.Style
  fishStyle : E.Style
  quitStyle : E.Style

/-- The function `lookup_timezone` (lines 102-113): `getIPInfo` stands for
`client.GetIPInfo(net.ParseIP(ip_address))` followed by `.Timezone`; on an
error `log.Fatal` logs it and calls `os.Exit(1)`. -/
def lookup_timezone {E : Ext} (W : World E) (ip_address : GoString) : Outcome GoString :=
  match W.getIPInfo ip_address with
  | .error _ => .exited 1
  | .ok timezone => .returned timezone

/-- The function `teaHandler` (lines 152-191). -/
def teaHandler {E : Ext} (W : World E) (s : Session) : Outcome (Model E) :=
  match lookup_timezone W s.remoteAddr with
  | .exited c => .exited c
  | .panicked p => .panicked p
  | .returned timezone =>
    match W.loadLocation timezone with
    | .error _ => .exited 1
    | .ok loc =>
      match get_fish W.files s.ptyWidth s.ptyHeight with
      | .exited c => .exited c
      | .panicked p => .panicked p
      | .returned fish =>
        .returned
          { timer := W.newTimer
            time := W.now
            timezone := loc
            fish := fish
            width := s.ptyWidth
            height := s.ptyHeight
            appStyle := W.appStyle
            txtStyle := W.txtStyle
            fishStyle := W.fishStyle
            quitStyle := W.quitStyle }

/-! ## Concrete surroundings used in the examples -/

/-- Library stand-ins that leave every text as it is. -/
def plainExt : Ext where
  Timer := Unit
  TickMsg := Unit
  TimerCmd := Unit
  Style := Unit
  timerUpdate := fun _ _ => ((), none)
  render := fun _ s => s
  setWidth := fun _ _ => ()
  setHeight := fun _ _ => ()
  place := fun _ _ s => s

/-- The location `UTC`. -/
def utc : Location := ⟨fun _ => 0⟩

/-- A session state at instant `t` in `UTC`, holding the fish `><>` in an
80 by 24 viewport. -/
def sampleModel (t : Time) : Model plainExt :=
  { timer := (), time := t, timezone := utc, fish := ascii "><>\n", width := 80, height := 24,
    appStyle := (), txtStyle := (), fishStyle := (), quitStyle := () }

/-- A world whose IP lookup fails. -/
def lookupFails : World plainExt :=
  { getIPInfo := fun _ => .error (ascii "lookup failed")
    loadLocation := fun _ => .ok utc
    now := 0, files := [ascii "><>"], newTimer := ()
    appStyle := (), txtStyle := (), fishStyle := (), quitStyle := () }

/-- A world whose IP lookup answers with an identifier that is no timezone. -/
def zoneUnknown : World plainExt :=
  { getIPInfo := fun _ => .ok (ascii "Nowhere/Land")
    loadLocation := fun _ => .error (ascii "unknown time zone Nowhere/Land")
    now := 0, files := [ascii "><>"], newTimer := ()
    appStyle := (), txtStyle := (), fishStyle := (), quitStyle := () }

/-- A session from `192.0.2.7` with an 80 by 24 terminal. -/
def sampleSession : Session := ⟨ascii "192.0.2.7:50000", 80, 24⟩

/-! ## Theorems -/

/-! ## Lemmas on the line measurements -/


theorem decodeRune_fst_eq_space (b : Nat) (rest : GoString) :
    (decodeRune (b :: rest)).1 = 32 ↔ b = 32 := by
  unfold decodeRune
  by_cases h : b < 0x80
  · simp [h]
  · have hb : b ≠ 32 := by omega
    simp only [h, if_false, hb, iff_false]
    repeat' split
    all_goals simp only [inRange, Bool.and_eq_true, decide_eq_true_eq] at *
    all_goals omega

theorem decodeRune_space (rest : GoString) : decodeRune (32 :: rest) = (32, 1) := by
  simp [decodeRune]

theorem count_leading_spaces_eq (fuel : Nat) (line : GoString) (acc : Nat)
    (h : line.length ≤ fuel) :
    count_leading_spaces fuel line acc = acc + leading line := by
  induction fuel generalizing line acc with
  | zero =>
    have : line = [] := List.length_eq_zero.mp (Nat.le_zero.mp h)
    subst this
    simp [count_leading_spaces, leading]
  | succ n ih =>
    cases line with
    | nil => simp [count_leading_spaces, leading]
    | cons b rest =>
      simp only [count_leading_spaces, decodeRune_fst_eq_space]
      by_cases hb : b = 32
      · subst hb
        simp only [if_true, decodeRune_space, List.drop_succ_cons, List.drop_zero]
        rw [ih rest (acc + 1) (by simpa using h)]
        simp [leading, List.takeWhile]
        omega
      · simp [hb, leading, List.takeWhile]

theorem line_leading_spaces_eq (line : GoString) : line_leading_spaces line = leading line := by
  simp [line_leading_spaces, count_leading_spaces_eq]

theorem leading_le_length (line : GoString) : leading line ≤ line.length := by
  unfold leading
  exact (List.takeWhile_prefix _).length_le

theorem nonBlank_iff (line : GoString) : nonBlank line ↔ leading line < line.length := by
  induction line with
  | nil => simp [nonBlank, leading]
  | cons b rest ih =>
    by_cases hb : b = 32
    · subst hb
      have : nonBlank (32 :: rest) ↔ nonBlank rest := by simp [nonBlank]
      rw [this, ih]
      simp [leading, List.takeWhile]
    · have : nonBlank (b :: rest) := ⟨b, by simp, hb⟩
      simp [this, leading, List.takeWhile, hb]

theorem take_leading (line : GoString) (m : Nat) (h : m ≤ leading line) :
    line.take m = List.replicate m 32 := by
  induction line generalizing m with
  | nil =>
    have : m = 0 := by simpa [leading] using h
    subst this; simp
  | cons b rest ih =>
    cases m with
    | zero => simp
    | succ k =>
      by_cases hb : b = 32
      · subst hb
        have hk : k ≤ leading rest := by simpa [leading, List.takeWhile] using h
        simp [List.replicate_succ, ih k hk]
      · simp [leading, List.takeWhile, hb] at h

theorem scan_append (lines : List GoString) (l : GoString) :
    scan (lines ++ [l]) = scan_line (scan lines) l := by
  simp [scan, List.foldl_append]

theorem scan_num_lines (lines : List GoString) : (scan lines).num_lines = lines.length := by
  induction lines using List.reverseRecOn with
  | nil => rfl
  | append_singleton ls l ih => simp [scan_append, scan_line, ih]

theorem scan_max_length_ge (lines : List GoString) :
    ∀ l ∈ lines, l.length ≤ (scan lines).max_length := by
  induction lines using List.reverseRecOn with
  | nil => simp
  | append_singleton ls x ih =>
    intro l hl
    rw [scan_append]
    simp only [scan_line]
    rcases List.mem_append.mp hl with h | h
    · have := ih l h
      split_ifs <;> omega
    · have : l = x := by simpa using h
      subst this
      split_ifs <;> omega

theorem scan_max_length_attained (lines : List GoString) (hne : lines ≠ []) :
    ∃ l ∈ lines, l.length = (scan lines).max_length := by
  induction lines using List.reverseRecOn with
  | nil => exact absurd rfl hne
  | append_singleton ls x ih =>
    rw [scan_append]
    simp only [scan_line]
    by_cases hx : x.length > (scan ls).max_length
    · exact ⟨x, by simp, by simp [hx]⟩
    · simp only [hx, if_false]
      by_cases hls : ls = []
      · subst hls
        refine ⟨x, by simp, ?_⟩
        have : (scan ([] : List GoString)).max_length = 0 := rfl
        omega
      · obtain ⟨l, hl, e⟩ := ih hls
        exact ⟨l, by simp [hl], e⟩

theorem scan_leading_spaces (lines : List GoString) :
    ((∀ l ∈ lines, ¬ nonBlank l) ∧ (scan lines).leading_spaces = -1) ∨
    (∃ m : Nat, (scan lines).leading_spaces = (m : Int) ∧ IsMinLeading m lines) := by
  induction lines using List.reverseRecOn with
  | nil => left; exact ⟨by simp, rfl⟩
  | append_singleton ls x ih =>
    rw [scan_append]
    simp only [scan_line]
    have hc : x.length > line_leading_spaces x ↔ nonBlank x := by
      rw [line_leading_spaces_eq, nonBlank_iff]
    rw [line_leading_spaces_eq] at hc ⊢
    by_cases hx : nonBlank x
    · right
      rw [if_pos (hc.mpr hx)]
      rcases ih with ⟨hb, e⟩ | ⟨m, e, ⟨l, hl, hnb, hm⟩, hmin⟩
      · refine ⟨leading x, by simp [e], ⟨x, by simp, hx, rfl⟩, ?_⟩
        intro l hl hnb
        rcases List.mem_append.mp hl with h | h
        · exact absurd hnb (hb l h)
        · have : l = x := by simpa using h
          subst this; exact le_refl _
      · have hne : (m : Int) ≠ -1 := by omega
        rw [e]
        simp only [hne, if_false]
        by_cases hlt : (leading x : Int) < (m : Int)
        · refine ⟨leading x, by simp [hlt], ⟨x, by simp, hx, rfl⟩, ?_⟩
          intro l0 hl0 hnb0
          rcases List.mem_append.mp hl0 with h | h
          · have := hmin l0 h hnb0
            omega
          · have : l0 = x := by simpa using h
            subst this; exact le_refl _
        · refine ⟨m, by simp [hlt], ⟨l, by simp [hl], hnb, hm⟩, ?_⟩
          intro l0 hl0 hnb0
          rcases List.mem_append.mp hl0 with h | h
          · exact hmin l0 h hnb0
          · have : l0 = x := by simpa using h
            subst this; omega
    · rw [if_neg (fun h => hx (hc.mp h))]
      rcases ih with ⟨hb, e⟩ | ⟨m, e, ⟨l, hl, hnb, hm⟩, hmin⟩
      · left
        refine ⟨?_, e⟩
        intro l hl
        rcases List.mem_append.mp hl with h | h
        · exact hb l h
        · have : l = x := by simpa using h
          subst this; exact hx
      · right
        refine ⟨m, e, ⟨l, by simp [hl], hnb, hm⟩, ?_⟩
        intro l0 hl0 hnb0
        rcases List.mem_append.mp hl0 with h | h
        · exact hmin l0 h hnb0
        · have : l0 = x := by simpa using h
          subst this; exact absurd hnb0 hx

theorem isMinLeading_unique (m k : Nat) (lines : List GoString)
    (hm : IsMinLeading m lines) (hk : IsMinLeading k lines) : m = k := by
  obtain ⟨⟨l, hl, hnb, e⟩, hmin⟩ := hm
  obtain ⟨⟨l2, hl2, hnb2, e2⟩, hmin2⟩ := hk
  have h1 := hmin l2 hl2 hnb2
  have h2 := hmin2 l hl hnb
  omega

theorem scan_leading_of_isMin (m : Nat) (lines : List GoString) (hm : IsMinLeading m lines) :
    (scan lines).leading_spaces = (m : Int) := by
  rcases scan_leading_spaces lines with ⟨hb, _⟩ | ⟨k, e, hk⟩
  · obtain ⟨⟨l, hl, hnb, _⟩, _⟩ := hm
    exact absurd hnb (hb l hl)
  · rw [e, isMinLeading_unique m k lines hm hk]

theorem scan_leading_of_blank (lines : List GoString) (hb : ∀ l ∈ lines, ¬ nonBlank l) :
    (scan lines).leading_spaces = -1 := by
  rcases scan_leading_spaces lines with ⟨_, e⟩ | ⟨k, _, ⟨l, hl, hnb, _⟩, _⟩
  · exact e
  · exact absurd hnb (hb l hl)

/-! ## Lemmas on splitting, stripping and selection -/

theorem split_newline_ne_nil (s : GoString) : split_newline s ≠ [] := by
  induction s with
  | nil => simp [split_newline]
  | cons b rest ih =>
    unfold split_newline
    split_ifs
    · simp
    · split <;> simp

theorem split_newline_cons_newline (rest : GoString) :
    split_newline (10 :: rest) = [] :: split_newline rest := by
  simp [split_newline]

theorem split_newline_append (l rest : GoString) (hl : 10 ∉ l) :
    split_newline (l ++ 10 :: rest) = l :: split_newline rest := by
  induction l with
  | nil => simp [split_newline]
  | cons b t ih =>
    have hb : b ≠ 10 := fun h => hl (by simp [h])
    have ht : 10 ∉ t := fun h => hl (by simp [h])
    simp only [List.cons_append]
    rw [split_newline]
    simp only [hb, if_false, ih ht]

theorem split_newline_no_newline (s : GoString) : ∀ l ∈ split_newline s, 10 ∉ l := by
  induction s with
  | nil => simp [split_newline]
  | cons b rest ih =>
    by_cases hb : b = 10
    · subst hb
      rw [split_newline_cons_newline]
      intro l hl
      rcases List.mem_cons.mp hl with h | h
      · subst h; simp
      · exact ih l h
    · rw [split_newline]
      simp only [hb, if_false]
      cases hs : split_newline rest with
      | nil => exact absurd hs (split_newline_ne_nil rest)
      | cons x xs =>
        rw [hs] at ih
        intro l hl
        rcases List.mem_cons.mp hl with h | h
        · subst h
          have := ih x (by simp)
          simp only [List.mem_cons, not_or]
          exact ⟨fun e => hb e.symm, this⟩
        · exact ih l (by simp [h])

theorem split_newline_unlines (ls : List GoString) (h : ∀ l ∈ ls, 10 ∉ l) :
    split_newline (unlines ls) = ls ++ [[]] := by
  induction ls with
  | nil => simp [unlines, split_newline]
  | cons l t ih =>
    have hl : 10 ∉ l := h l (by simp)
    have ht : ∀ x ∈ t, 10 ∉ x := fun x hx => h x (by simp [hx])
    simp [unlines, split_newline_append l _ hl, ih ht]

theorem strip_line_eq_drop (m : Nat) (line : GoString) : strip_line m line = line.drop m := by
  unfold strip_line
  split_ifs with h
  · rfl
  · exact (List.drop_eq_nil_of_le (by omega)).symm

theorem strip_line_zero (line : GoString) : strip_line 0 line = line := by
  simp [strip_line_eq_drop]

theorem strip_loop_nat (m : Nat) (lines : List GoString) (acc : GoString) :
    strip_loop (m : Int) lines acc = .returned (acc ++ unlines (lines.map (strip_line m))) := by
  induction lines generalizing acc with
  | nil => simp [strip_loop, unlines]
  | cons line rest ih =>
    unfold strip_loop
    by_cases hlen : line.length > m
    · have h1 : (line.length : Int) > (m : Int) := by exact_mod_cast hlen
      have hs : slice_from line (m : Int) = .returned (line.drop m) := by
        unfold slice_from
        have : ¬ ((m : Int) < 0 ∨ (line.length : Int) < (m : Int)) := by omega
        rw [if_neg this]
        simp
      rw [if_pos h1, hs]
      simp only [ih, List.map_cons, unlines, strip_line, hlen, if_true]
      simp
    · have h1 : ¬ (line.length : Int) > (m : Int) := by
        intro h; exact hlen (by exact_mod_cast h)
      rw [if_neg h1]
      simp only [ih, List.map_cons, unlines, strip_line, hlen, if_false]
      simp

theorem strip_loop_sentinel (line : GoString) (rest : List GoString) (acc : GoString) :
    strip_loop (-1) (line :: rest) acc = .panicked .sliceBoundsOutOfRange := by
  unfold strip_loop
  have h1 : (line.length : Int) > -1 := by omega
  rw [if_pos h1]
  simp [slice_from]

theorem maxLineWidth_ge (fish : GoString) : ∀ l ∈ split_newline fish, l.length ≤ maxLineWidth fish := by
  unfold maxLineWidth
  generalize split_newline fish = ls
  induction ls with
  | nil => simp
  | cons x xs ih =>
    intro l hl
    simp only [List.map_cons, List.foldr_cons]
    rcases List.mem_cons.mp hl with h | h
    · subst h; exact le_max_left _ _
    · exact le_trans (ih l h) (le_max_right _ _)

theorem maxLineWidth_attained (fish : GoString) :
    ∃ l ∈ split_newline fish, l.length = maxLineWidth fish := by
  unfold maxLineWidth
  have hne := split_newline_ne_nil fish
  generalize split_newline fish = ls at hne
  induction ls with
  | nil => exact absurd rfl hne
  | cons x xs ih =>
    simp only [List.map_cons, List.foldr_cons]
    by_cases hxs : xs = []
    · subst hxs; exact ⟨x, by simp, by simp⟩
    · obtain ⟨l, hl, e⟩ := ih hxs
      rcases le_total x.length ((xs.map List.length).foldr max 0) with h | h
      · exact ⟨l, by simp [hl], by rw [e, max_eq_right h]⟩
      · exact ⟨x, by simp, by rw [max_eq_left h]⟩

theorem scan_max_length_eq (fish : GoString) :
    (scan (split_newline fish)).max_length = maxLineWidth fish := by
  obtain ⟨l, hl, e⟩ := maxLineWidth_attained fish
  obtain ⟨l2, hl2, e2⟩ := scan_max_length_attained _ (split_newline_ne_nil fish)
  have h1 := scan_max_length_ge _ l hl
  have h2 := maxLineWidth_ge fish l2 hl2
  omega

theorem fits_iff (fish : GoString) (w h : Int) :
    fits fish w h ↔ (lineCount fish : Int) < h ∧ (maxLineWidth fish : Int) < w := by
  unfold fits
  rw [scan_num_lines, scan_max_length_eq]
  rfl

theorem get_fish_skip (pre rest : List GoString) (w h : Int)
    (hpre : ∀ x ∈ pre, ¬ fits x w h) :
    get_fish (pre ++ rest) w h = get_fish rest w h := by
  induction pre with
  | nil => rfl
  | cons x xs ih =>
    have hx : ¬ fits x w h := hpre x (by simp)
    simp only [List.cons_append, get_fish, hx, if_false]
    exact ih (fun y hy => hpre y (by simp [hy]))

theorem get_fish_accept (fish : GoString) (rest : List GoString) (w h : Int)
    (hfit : fits fish w h) :
    get_fish (fish :: rest) w h =
      strip_loop (scan (split_newline fish)).leading_spaces (split_newline fish) [] := by
  simp [get_fish, hfit]

theorem unlines_append (xs ys : List GoString) : unlines (xs ++ ys) = unlines xs ++ unlines ys := by
  induction xs with
  | nil => simp [unlines]
  | cons x t ih => simp [unlines, ih]

theorem not_nonBlank_iff (line : GoString) : ¬ nonBlank line ↔ ∀ b ∈ line, b = 32 := by
  simp [nonBlank]

theorem leading_drop (line : GoString) (k : Nat) (hk : k ≤ leading line) :
    leading (line.drop k) = leading line - k := by
  induction line generalizing k with
  | nil => simp [leading]
  | cons b rest ih =>
    cases k with
    | zero => simp
    | succ j =>
      by_cases hb : b = 32
      · subst hb
        have hj : j ≤ leading rest := by simpa [leading, List.takeWhile] using hk
        have := ih j hj
        simp only [List.drop_succ_cons, this]
        simp [leading, List.takeWhile]
      · simp [leading, List.takeWhile, hb] at hk

theorem nonBlank_drop (line : GoString) (k : Nat) (hk : k ≤ leading line) (hnb : nonBlank line) :
    nonBlank (line.drop k) := by
  rw [nonBlank_iff] at hnb ⊢
  rw [leading_drop line k hk, List.length_drop]
  omega

theorem drop_no_newline (line : GoString) (k : Nat) (h : 10 ∉ line) : 10 ∉ line.drop k :=
  fun hmem => h (List.mem_of_mem_drop hmem)

theorem isMinLeading_strip (m : Nat) (lines : List GoString) (hm : IsMinLeading m lines) :
    IsMinLeading 0 (lines.map (strip_line m)) := by
  obtain ⟨⟨l, hl, hnb, e⟩, _⟩ := hm
  refine ⟨⟨strip_line m l, List.mem_map_of_mem _ hl, ?_, ?_⟩, fun _ _ _ => Nat.zero_le _⟩
  · rw [strip_line_eq_drop]; exact nonBlank_drop l m (by omega) hnb
  · rw [strip_line_eq_drop, leading_drop l m (by omega)]; omega

theorem isMinLeading_append_blank (m : Nat) (lines : List GoString) (hm : IsMinLeading m lines) :
    IsMinLeading m (lines ++ [[]]) := by
  obtain ⟨⟨l, hl, hnb, e⟩, hmin⟩ := hm
  refine ⟨⟨l, by simp [hl], hnb, e⟩, ?_⟩
  intro x hx hxnb
  rcases List.mem_append.mp hx with h | h
  · exact hmin x h hxnb
  · have : x = [] := by simpa using h
    subst this
    exact absurd hxnb (by simp [nonBlank])

theorem map_strip_line_zero (lines : List GoString) : lines.map (strip_line 0) = lines := by
  induction lines with
  | nil => rfl
  | cons x t ih => simp [strip_line_zero, ih]

theorem get_fish_of_isMin (a : GoString) (rest : List GoString) (w h : Int) (m : Nat)
    (hfit : (lineCount a : Int) < h ∧ (maxLineWidth a : Int) < w)
    (hm : IsMinLeading m (split_newline a)) :
    get_fish (a :: rest) w h = .returned (unlines ((split_newline a).map (strip_line m))) := by
  rw [get_fish_accept a rest w h ((fits_iff a w h).mpr hfit), scan_leading_of_isMin m _ hm,
    strip_loop_nat]
  simp

theorem secondOfDay_lt (t : Time) (loc : Location) : secondOfDay t loc < 86400 := by
  unfold secondOfDay
  have h1 : 0 ≤ (t + loc.offset t) % 86400 := Int.emod_nonneg _ (by norm_num)
  have h2 : (t + loc.offset t) % 86400 < 86400 := Int.emod_lt_of_pos _ (by norm_num)
  omega

theorem format_03_04_eq_iff (t : Time) (loc : Location) :
    format_03_04 t loc = ascii "11:11" ↔
      (hour t loc = 11 ∨ hour t loc = 23) ∧ minute t loc = 11 := by
  have hlit : ascii "11:11" = [49, 49, 58, 49, 49] := by decide
  have hs := secondOfDay_lt t loc
  have hh : hour t loc < 24 := by unfold hour; omega
  have hm : minute t loc < 60 := by unfold minute; omega
  rw [hlit]
  unfold format_03_04 two_digits hour12
  clear hs hlit
  generalize hour t loc = H at hh ⊢
  generalize minute t loc = M at hm ⊢
  split_ifs with h0
  · simp only [List.cons_append, List.nil_append, List.cons.injEq, and_true, true_and]
    constructor
    · rintro ⟨h1, h2, _⟩; omega
    · rintro ⟨h1, h2⟩; omega
  · simp only [List.cons_append, List.nil_append, List.cons.injEq, and_true, true_and]
    constructor
    · rintro ⟨h1, h2, h3, h4⟩; omega
    · rintro ⟨h1, h2⟩; omega

theorem View_eq_frame (E : Ext) (alwaysfish : GoString) (m : Model E) :
    View E alwaysfish m =
      if format_03_04 m.time m.timezone = ascii "11:11" ∨ alwaysfish = ascii "1" then
        frame E m m.fish
      else frame E m placeholder := by
  unfold View frame
  split_ifs <;> simp

/-! ## The claims -/

/-- C1, evaluated where it fails: in the pool order `["  ", "><>"]` both assets
fit an 80 by 24 viewport, yet `get_fish` ends in a slice-bounds panic on the
all-space asset instead of returning a fitting asset. -/
theorem C1_fitting_pool_panics :
    (∃ a ∈ [ascii "  ", ascii "><>"], (lineCount a : Int) < 24 ∧ (maxLineWidth a : Int) < 80) ∧
      get_fish [ascii "  ", ascii "><>"] 80 24 = .panicked .sliceBoundsOutOfRange := by
  decide

/-- C3, as the code behaves: for an asset whose lines are all blank the
leading-space count keeps its sentinel `-1`, and when the asset fits the
viewport the stripping step panics on `line[-1:]` instead of returning the
lines unchanged. -/
theorem C3_blank_asset_panics (a : GoString) (rest : List GoString) (w h : Int)
    (hblank : ∀ l ∈ split_newline a, ¬ nonBlank l)
    (hfit : (lineCount a : Int) < h ∧ (maxLineWidth a : Int) < w) :
    (scan (split_newline a)).leading_spaces = -1 ∧
      get_fish (a :: rest) w h = .panicked .sliceBoundsOutOfRange := by
  have hs := scan_leading_of_blank _ hblank
  refine ⟨hs, ?_⟩
  rw [get_fish_accept a rest w h ((fits_iff a w h).mpr hfit), hs]
  cases hsp : split_newline a with
  | nil => exact absurd hsp (split_newline_ne_nil a)
  | cons l ls => exact strip_loop_sentinel l ls []

/-- C3 at the empty asset in an 80 by 24 viewport. -/
theorem C3_blank_asset_panics_witness :
    (∀ l ∈ split_newline [], ¬ nonBlank l) ∧
      ((lineCount [] : Int) < 24 ∧ (maxLineWidth [] : Int) < 80) ∧
      ((scan (split_newline [])).leading_spaces = -1 ∧
        get_fish [[]] 80 24 = .panicked .sliceBoundsOutOfRange) :=
  ⟨by decide, by decide, C3_blank_asset_panics [] [] 80 24 (by decide) (by decide)⟩

/-- C4: when `a` is the asset `get_fish` accepts (no asset before it in the
pool order fits) and `m` is the minimum number of leading spaces over its
non-blank lines, the returned text is the lines of `a`, in order, each
followed by a newline, where a line longer than `m` has lost its first `m`
bytes and a line of length at most `m` is empty; the removed `m` bytes are all
spaces and a line of length at most `m` holds only spaces, so no non-space
byte is dropped. -/
theorem C4_strip_min_leading (pre post : List GoString) (a : GoString) (w h : Int) (m : Nat)
    (hpre : ∀ x ∈ pre, ¬ ((lineCount x : Int) < h ∧ (maxLineWidth x : Int) < w))
    (hfit : (lineCount a : Int) < h ∧ (maxLineWidth a : Int) < w)
    (hm : IsMinLeading m (split_newline a)) :
    get_fish (pre ++ a :: post) w h =
        .returned (unlines ((split_newline a).map
          (fun l => if m < l.length then l.drop m else []))) ∧
      ((split_newline a).map (fun l => if m < l.length then l.drop m else [])).length
        = lineCount a ∧
      ∀ l ∈ split_newline a,
        (m < l.length → l.take m = List.replicate m 32) ∧
        (l.length ≤ m → ∀ b ∈ l, b = 32) := by
  refine ⟨?_, by simp [lineCount], ?_⟩
  · rw [get_fish_skip pre _ w h (fun x hx hf => hpre x hx ((fits_iff x w h).mp hf)),
      get_fish_of_isMin a post w h m hfit hm]
    rfl
  · intro l hl
    have hle := leading_le_length l
    constructor
    · intro hlt
      apply take_leading
      by_cases hnb : nonBlank l
      · exact hm.2 l hl hnb
      · rw [nonBlank_iff] at hnb
        omega
    · intro hlen
      have hnb : ¬ nonBlank l := by
        intro hnb
        have h1 := hm.2 l hl hnb
        rw [nonBlank_iff] at hnb
        omega
      exact (not_nonBlank_iff l).mp hnb

/-- C4 on a two-asset pool in a 10 by 5 viewport: the first asset is too wide,
the second is indented by two and three spaces. -/
theorem C4_strip_min_leading_witness :
    (∀ x ∈ [ascii "0123456789"], ¬ ((lineCount x : Int) < 5 ∧ (maxLineWidth x : Int) < 10)) ∧
      ((lineCount (ascii "  ><>\n   o\n") : Int) < 5 ∧
        (maxLineWidth (ascii "  ><>\n   o\n") : Int) < 10) ∧
      IsMinLeading 2 (split_newline (ascii "  ><>\n   o\n")) ∧
      get_fish ([ascii "0123456789"] ++ ascii "  ><>\n   o\n" :: []) 10 5 =
        .returned (unlines ((split_newline (ascii "  ><>\n   o\n")).map
          (fun l => if 2 < l.length then l.drop 2 else []))) :=
  ⟨by decide, by decide, by decide,
    (C4_strip_min_leading [ascii "0123456789"] [] (ascii "  ><>\n   o\n") 10 5 2
      (by decide) (by decide) (by decide)).1⟩

/-- C5, refuted: the asset `é` (the two bytes `C3 A9`) has one line that is
one display column wide, so it fits a 2 by 2 viewport by the rendered width;
`get_fish` rejects it there (it returns `""`) because its byte length 2 is not
below 2, and accepts it only once the width is 3. -/
theorem C5_counterexample :
    (lineCount [0xC3, 0xA9] : Int) < 2 ∧ (maxDisplayWidth [0xC3, 0xA9] : Int) < 2 ∧
      get_fish [[0xC3, 0xA9]] 2 2 = .returned [] ∧
      get_fish [[0xC3, 0xA9]] 3 2 = .returned [0xC3, 0xA9, 10] := by
  decide

/-- C5, amended: the `max_length` that `get_fish` compares against the
viewport width is the length of the longest line in bytes, and an asset one
of whose lines has a byte length not below `max_width` is passed over,
whatever its rendered width. -/
theorem C5_width_in_bytes (a : GoString) (rest : List GoString) (w h : Int)
    (hw : w ≤ (maxLineWidth a : Int)) :
    (scan (split_newline a)).max_length = maxLineWidth a ∧
      (∃ l ∈ split_newline a, l.length = maxLineWidth a) ∧
      get_fish (a :: rest) w h = get_fish rest w h := by
  refine ⟨scan_max_length_eq a, maxLineWidth_attained a, ?_⟩
  have hnf : ¬ fits a w h := by
    rw [fits_iff]
    omega
  simp [get_fish, hnf]

/-- C5 amended, at the asset `é` in a 2 by 2 viewport. -/
theorem C5_width_in_bytes_witness :
    (2 : Int) ≤ (maxLineWidth [0xC3, 0xA9] : Int) ∧
      get_fish ([0xC3, 0xA9] :: []) 2 2 = get_fish [] 2 2 :=
  ⟨by decide, (C5_width_in_bytes [0xC3, 0xA9] [] 2 2 (by decide)).2.2⟩

/-- C6, refuted: the asset of two spaces fits an 80 by 24 viewport, has no
line with zero leading spaces, and `get_fish` panics on it instead of
returning a normalized form; and for the asset ` a` the returned text `a\n`,
normalized again, comes back as `a\n\n`, not unchanged. -/
theorem C6_counterexample :
    ((lineCount (ascii "  ") : Int) < 24 ∧ (maxLineWidth (ascii "  ") : Int) < 80 ∧
        (∀ l ∈ split_newline (ascii "  "), leading l ≠ 0) ∧
        get_fish [ascii "  "] 80 24 = .panicked .sliceBoundsOutOfRange) ∧
      (get_fish [ascii " a"] 80 24 = .returned (ascii "a\n") ∧
        get_fish [ascii "a\n"] 80 24 = .returned (ascii "a\n\n") ∧
        ascii "a\n\n" ≠ ascii "a\n") := by
  decide

/-- C6, amended: for an accepted asset with at least one non-blank line, of
minimum leading-space count `m`, the stripped lines that `get_fish` returns
(each followed by a newline) contain a non-blank line with zero leading
spaces; measured again their leading-space count is 0, stripping them again
changes no line and rebuilds the same text; and `get_fish` applied to the
returned text, where that fits, returns it with one more newline. -/
theorem C6_restrip_is_identity (a : GoString) (rest : List GoString) (w h : Int) (m : Nat)
    (hfit : (lineCount a : Int) < h ∧ (maxLineWidth a : Int) < w)
    (hm : IsMinLeading m (split_newline a)) :
    get_fish (a :: rest) w h = .returned (unlines ((split_newline a).map (strip_line m))) ∧
      (∃ l ∈ (split_newline a).map (strip_line m), nonBlank l ∧ leading l = 0) ∧
      (scan ((split_newline a).map (strip_line m))).leading_spaces = 0 ∧
      ((split_newline a).map (strip_line m)).map (strip_line 0)
        = (split_newline a).map (strip_line m) ∧
      strip_loop (scan ((split_newline a).map (strip_line m))).leading_spaces
          ((split_newline a).map (strip_line m)) []
        = .returned (unlines ((split_newline a).map (strip_line m))) ∧
      ∀ (others : List GoString) (w2 h2 : Int),
        ((lineCount (unlines ((split_newline a).map (strip_line m))) : Int) < h2 ∧
          (maxLineWidth (unlines ((split_newline a).map (strip_line m))) : Int) < w2) →
        get_fish (unlines ((split_newline a).map (strip_line m)) :: others) w2 h2
          = .returned (unlines ((split_newline a).map (strip_line m)) ++ [10]) := by
  have h0 := isMinLeading_strip m _ hm
  have hscan := scan_leading_of_isMin 0 _ h0
  refine ⟨get_fish_of_isMin a rest w h m hfit hm, h0.1, by simpa using hscan,
    map_strip_line_zero _, ?_, ?_⟩
  · rw [hscan, strip_loop_nat, map_strip_line_zero]
    simp
  · intro others w2 h2 hfit2
    have hnl : ∀ l ∈ (split_newline a).map (strip_line m), 10 ∉ l := by
      intro l hl
      obtain ⟨x, hx, rfl⟩ := List.mem_map.mp hl
      rw [strip_line_eq_drop]
      exact drop_no_newline x m (split_newline_no_newline a x hx)
    have hsplit := split_newline_unlines _ hnl
    have hmin : IsMinLeading 0 (split_newline (unlines ((split_newline a).map (strip_line m)))) := by
      rw [hsplit]
      exact isMinLeading_append_blank 0 _ h0
    rw [get_fish_of_isMin _ others w2 h2 0 hfit2 hmin, hsplit, map_strip_line_zero,
      unlines_append]
    simp [unlines]

/-- C6 amended, at the asset `  ><>` followed by `   o` in an 80 by 24
viewport. -/
theorem C6_restrip_is_identity_witness :
    ((lineCount (ascii "  ><>\n   o") : Int) < 24 ∧ (maxLineWidth (ascii "  ><>\n   o") : Int) < 80) ∧
      IsMinLeading 2 (split_newline (ascii "  ><>\n   o")) ∧
      get_fish (ascii "  ><>\n   o" :: []) 80 24
        = .returned (unlines ((split_newline (ascii "  ><>\n   o")).map (strip_line 2))) :=
  ⟨by decide, by decide,
    (C6_restrip_is_identity (ascii "  ><>\n   o") [] 80 24 2 (by decide) (by decide)).1⟩

/-- C7: in every order of the pool, if the pool is empty or no asset of it has
`lineCount < h` and `maxLineWidth < w`, `get_fish` passes over every candidate
and returns the empty string, without failing. -/
theorem C7_not_found (pool order : List GoString) (w h : Int)
    (hperm : order.Perm pool)
    (hnone : ∀ a ∈ pool, ¬ ((lineCount a : Int) < h ∧ (maxLineWidth a : Int) < w)) :
    get_fish order w h = .returned [] := by
  have hpre : ∀ x ∈ order, ¬ fits x w h := fun x hx hf =>
    hnone x (hperm.subset hx) ((fits_iff x w h).mp hf)
  have := get_fish_skip order [] w h hpre
  rw [List.append_nil] at this
  rw [this]
  rfl

/-- C7 on a pool of two assets, one too wide and one too tall for a 4 by 3
viewport, taken in the opposite order. -/
theorem C7_not_found_witness :
    [ascii "a\nb\nc", ascii "><>o"].Perm [ascii "><>o", ascii "a\nb\nc"] ∧
      (∀ a ∈ [ascii "><>o", ascii "a\nb\nc"],
        ¬ ((lineCount a : Int) < 3 ∧ (maxLineWidth a : Int) < 4)) ∧
      get_fish [ascii "a\nb\nc", ascii "><>o"] 4 3 = .returned [] :=
  ⟨List.Perm.swap _ _ _, by decide,
    C7_not_found [ascii "><>o", ascii "a\nb\nc"] [ascii "a\nb\nc", ascii "><>o"] 4 3
      (List.Perm.swap _ _ _) (by decide)⟩

/-- C2, refuted: with the override flag unset, at 23:11:00 in the session
timezone the clock line reads `The time is 23:11:00` and `View` shows the
fish `><>`, not the placeholder; so does it at 11:11:00, a second minute of
the same day. -/
theorem C2_counterexample :
    View plainExt [] (sampleModel 83460)
        = ascii "The time is 23:11:00\n\n><>\n\n\n" ++ quit_hint ∧
      View plainExt [] (sampleModel 40260)
        = ascii "The time is 11:11:00\n\n><>\n\n\n" ++ quit_hint := by
  decide

/-- C2, amended: with the override flag unset, `View` puts the selected asset
beneath the clock exactly when the time in the session timezone reads 11:11 on
the 12-hour dial, that is when the 24-hour hour `HH` of the clock line is 11
or 23 and the minute is 11; at every other time it puts the placeholder
`Come back at 11:11` there. -/
theorem C2_reveal_at_11_11_am_and_pm (E : Ext) (alwaysfish : GoString) (m : Model E)
    (hflag : alwaysfish ≠ ascii "1") :
    View E alwaysfish m =
      if (hour m.time m.timezone = 11 ∨ hour m.time m.timezone = 23) ∧
          minute m.time m.timezone = 11 then
        frame E m m.fish
      else frame E m (ascii "Come back at 11:11") := by
  rw [View_eq_frame]
  simp only [hflag, or_false, format_03_04_eq_iff]
  rfl

/-- C2 amended, at 11:10:59 with the override flag unset: the placeholder is
shown. -/
theorem C2_reveal_at_11_11_am_and_pm_witness :
    ([] : GoString) ≠ ascii "1" ∧
      View plainExt [] (sampleModel 40259)
        = frame plainExt (sampleModel 40259) (ascii "Come back at 11:11") :=
  ⟨by decide, by
    have h := C2_reveal_at_11_11_am_and_pm plainExt [] (sampleModel 40259) (by decide)
    rw [h]
    decide⟩

/-- C8: on a resize event `(w, h)` `Update` returns the state with width `w`
and height `h` and every other field (asset, time, timezone, timer, styles)
as before, whatever the new size, together with no command. -/
theorem C8_resize (E : Ext) (now : Time) (m : Model E) (w h : Int) :
    (Update E now m (.windowSize w h)).1 = { m with width := w, height := h } ∧
      (Update E now m (.windowSize w h)).1.width = w ∧
      (Update E now m (.windowSize w h)).1.height = h ∧
      (Update E now m (.windowSize w h)).1.fish = m.fish ∧
      (Update E now m (.windowSize w h)).1.time = m.time ∧
      (Update E now m (.windowSize w h)).1.timezone = m.timezone ∧
      (Update E now m (.windowSize w h)).2 = .nil :=
  ⟨rfl, rfl, rfl, rfl, rfl, rfl, rfl⟩

/-- C9, refuted: when the IP lookup fails, and likewise when the identifier
it returns is not a loadable timezone, `teaHandler` does not return: it ends
the whole server process with exit status 1. -/
theorem C9_counterexample :
    teaHandler lookupFails sampleSession = .exited 1 ∧
      teaHandler zoneUnknown sampleSession = .exited 1 :=
  ⟨rfl, rfl⟩

/-- C9, amended: when timezone resolution fails for a connection (the lookup
returns an error, or the returned identifier is not a loadable timezone),
`teaHandler` builds no session state and, after `log.Fatal` has logged the
failure, the server process exits with status 1. -/
theorem C9_resolution_failure_exits (E : Ext) (W : World E) (s : Session)
    (hfail : (∃ e, W.getIPInfo s.remoteAddr = .error e) ∨
      (∃ tz e, W.getIPInfo s.remoteAddr = .ok tz ∧ W.loadLocation tz = .error e)) :
    teaHandler W s = .exited 1 := by
  rcases hfail with ⟨e, he⟩ | ⟨tz, e, htz, he⟩
  · simp [teaHandler, lookup_timezone, he]
  · simp [teaHandler, lookup_timezone, htz, he]

/-- C9 amended, at a world whose lookup fails. -/
theorem C9_resolution_failure_exits_witness :
    ((∃ e, lookupFails.getIPInfo sampleSession.remoteAddr = .error e) ∨
      (∃ tz e, lookupFails.getIPInfo sampleSession.remoteAddr = .ok tz ∧
        lookupFails.loadLocation tz = .error e)) ∧
      teaHandler lookupFails sampleSession = .exited 1 :=
  ⟨Or.inl ⟨_, rfl⟩,
    C9_resolution_failure_exits plainExt lookupFails sampleSession (Or.inl ⟨_, rfl⟩)⟩

/-- C10: on a key event `Update` returns the state it was given, and the
command is `tea.Quit` if and only if the key is `q` or `ctrl+c`; for any other
key there is no command. -/
theorem C10_quit_keys (E : Ext) (now : Time) (m : Model E) (key : GoString) :
    (Update E now m (.key key)).1 = m ∧
      ((Update E now m (.key key)).2 = .quit ↔ (key = ascii "q" ∨ key = ascii "ctrl+c")) ∧
      ((Update E now m (.key key)).2 = .nil ↔ ¬ (key = ascii "q" ∨ key = ascii "ctrl+c")) := by
  unfold Update
  by_cases hk : key = ascii "q" ∨ key = ascii "ctrl+c"
  · simp [hk]
  · simp [hk]

end Fissh
